import Mathlib

/-!
Shallow embedding of `src/privatekey.cpp` (BLS private-key lifecycle and
scalar algebra). Scalars are naturals; byte buffers are lists of naturals,
each byte `< 256`, big-endian. Group elements of G1 and G2 are represented
by their discrete logarithm with respect to the fixed generator: the groups
have prime order `r`, so every element is `s * Generator` for a unique
`s` in `[0, r)`, and scalar multiplication of an element is multiplication
of exponents modulo `r`. Fallible operations return `Except KeyError`,
one error constructor per `throw` site of the source.
-/

namespace BLS

/-- Modelled from the spec: the group-order constant `r` supplied by the
external curve-arithmetic provider (`g1_get_ord`), the prime order of the
scalar field of BLS12-381. -/
def groupOrder : Nat :=
  52435875175126190479447740508185965837690552500527637822603658699938581184513

def PRIVATE_KEY_SIZE : Nat := 32

/-- Big-endian value of a byte buffer (`bn_read_bin`). -/
def fromBE (b : List Nat) : Nat := b.foldl (fun a x => a * 256 + x) 0

/-- Fixed-width big-endian encoding (`bn_write_bin` into a `k`-byte buffer). -/
def toBE : Nat → Nat → List Nat
  | 0, _ => []
  | k + 1, n => toBE k (n / 256) ++ [n % 256]

/-- The errors the source throws, one constructor per `throw` site. -/
inductive KeyError where
  | invalidSize
  | notLessThanOrder
  | uninitialized
  | emptyAggregation
  | bufferInvalid
  deriving DecidableEq

/-- `bls::PrivateKey`: secure storage either holds a scalar (`some s`,
the value of the `bn_t`) or is absent (`none`, the moved-from state with
`keydata == nullptr`). -/
structure PrivateKey where
  keydata : Option Nat
  deriving DecidableEq

/-- `PrivateKey::CheckKeyData` followed by dereferencing the storage:
errors iff storage is absent, otherwise yields the stored scalar. -/
def PrivateKey.CheckKeyData (k : PrivateKey) : Except KeyError Nat :=
  match k.keydata with
  | none => .error .uninitialized
  | some s => .ok s

/-- `PrivateKey::PrivateKey()`: `AllocateKeyData` zero-initialises. -/
def defaultKey : PrivateKey := ⟨some 0⟩

/-- `PrivateKey::PrivateKey(const PrivateKey&)`: checks the source, then
deep-copies the scalar into fresh storage. -/
def copyKey (k : PrivateKey) : Except KeyError PrivateKey :=
  k.CheckKeyData.map (fun s => ⟨some s⟩)

/-- `PrivateKey::PrivateKey(PrivateKey&&)`: the destination takes the
source's storage handle, the source's handle becomes null. Returns
(destination, source-after-move). -/
def moveKey (k : PrivateKey) : PrivateKey × PrivateKey :=
  (⟨k.keydata⟩, ⟨none⟩)

/-- `PrivateKey::FromBytes`: size check, big-endian read, then either
reduction mod the order (`bn_mod_basic`) or the canonicity check
`bn_cmp(*k.keydata, ord) > 0` — note the source rejects only values
strictly greater than the order. -/
def FromBytes (bytes : List Nat) (modOrder : Bool) : Except KeyError PrivateKey :=
  if bytes.length ≠ PRIVATE_KEY_SIZE then .error .invalidSize
  else
    let v := fromBE bytes
    if modOrder then .ok ⟨some (v % groupOrder)⟩
    else if v > groupOrder then .error .notLessThanOrder
    else .ok ⟨some v⟩

/-- Modelled from the spec: the provider's fixed-generator scalar
multiplication in G1 (`g1_mul_gen`), in exponent representation. -/
def g1MulGen (s : Nat) : Nat := s % groupOrder

/-- Modelled from the spec: the provider's arbitrary-point scalar
multiplication in G1 (`g1_mul`), in exponent representation. -/
def g1Mul (e s : Nat) : Nat := (e * s) % groupOrder

/-- The fixed G1 generator has discrete logarithm 1. -/
def g1Gen : Nat := 1

/-- Modelled from the spec: `g2_mul_gen`, in exponent representation. -/
def g2MulGen (s : Nat) : Nat := s % groupOrder

/-- Modelled from the spec: `g2_mul`, in exponent representation. -/
def g2Mul (e s : Nat) : Nat := (e * s) % groupOrder

/-- The fixed G2 generator has discrete logarithm 1. -/
def g2Gen : Nat := 1

/-- `PrivateKey::GetG1Element`: guard, then `g1_mul_gen`. -/
def PrivateKey.GetG1Element (k : PrivateKey) : Except KeyError Nat :=
  k.CheckKeyData.map g1MulGen

/-- `PrivateKey::GetG2Element`: guard, then `g2_mul_gen`. -/
def PrivateKey.GetG2Element (k : PrivateKey) : Except KeyError Nat :=
  k.CheckKeyData.map g2MulGen

/-- `operator*(const G1Element&, const PrivateKey&)`: guard on the key,
then `g1_mul` of the element by the stored scalar. -/
def mulG1 (a : Nat) (k : PrivateKey) : Except KeyError Nat :=
  k.CheckKeyData.map (fun s => g1Mul a s)

/-- `operator*(const G2Element&, const PrivateKey&)`. -/
def mulG2 (a : Nat) (k : PrivateKey) : Except KeyError Nat :=
  k.CheckKeyData.map (fun s => g2Mul a s)

/-- The loop of `PrivateKey::Aggregate`: for each further key, guard,
`bn_add`, then `bn_mod_basic` by the order. -/
def aggLoop (acc : Nat) : List PrivateKey → Except KeyError Nat
  | [] => .ok acc
  | k :: rest =>
    match k.keydata with
    | none => .error .uninitialized
    | some s => aggLoop ((acc + s) % groupOrder) rest

/-- `PrivateKey::Aggregate`: empty input throws a length error; otherwise
the first key is copied (the copy constructor guards it) and the remaining
scalars are folded in with reduction mod the order after each addition. -/
def Aggregate : List PrivateKey → Except KeyError PrivateKey
  | [] => .error .emptyAggregation
  | k0 :: rest =>
    match k0.keydata with
    | none => .error .uninitialized
    | some s0 => (aggLoop s0 rest).map (fun s => ⟨some s⟩)

/-- `PrivateKey::IsZero`: guard, then `bn_is_zero`. -/
def PrivateKey.IsZero (k : PrivateKey) : Except KeyError Bool :=
  k.CheckKeyData.map (fun s => s == 0)

/-- `operator==(const PrivateKey&, const PrivateKey&)`: guards both
operands (left first), then compares the scalars. -/
def keyEq (a b : PrivateKey) : Except KeyError Bool :=
  a.CheckKeyData.bind (fun sa => b.CheckKeyData.map (fun sb => sa == sb))

/-- `PrivateKey::Serialize(uint8_t*)`: the null-buffer check comes first,
then the key-validity guard, then `bn_write_bin` of 32 bytes. -/
def PrivateKey.SerializeInto (k : PrivateKey) (bufferNull : Bool) :
    Except KeyError (List Nat) :=
  if bufferNull then .error .bufferInvalid
  else k.CheckKeyData.map (fun s => toBE PRIVATE_KEY_SIZE s)

/-- `PrivateKey::Serialize()`: allocates a 32-byte vector (never null)
and delegates to the pointer overload. -/
def PrivateKey.Serialize (k : PrivateKey) : Except KeyError (List Nat) :=
  k.SerializeInto false

/-- Modelled from the spec: the external hash-to-curve function
`ep2_map_dst` maps a message and a domain-separation tag deterministically
to a G2 point; only determinism is specified, so a concrete deterministic
map into the exponent representation stands in for it. -/
def ep2MapDst (msg dst : List Nat) : Nat :=
  (fromBE dst * 31 + fromBE msg) % groupOrder

/-- `PrivateKey::SignG2`: guard, hash the message onto G2 with the tag,
then `g2_mul` by the stored scalar. The hash function is a parameter so
the theorems hold for every deterministic hash-to-curve instance. -/
def PrivateKey.SignG2 (k : PrivateKey) (H : List Nat → List Nat → Nat)
    (msg dst : List Nat) : Except KeyError Nat :=
  k.CheckKeyData.map (fun s => g2Mul (H msg dst) s)

theorem groupOrder_pos : 0 < groupOrder := by decide

theorem fromBE_append_single (l : List Nat) (x : Nat) :
    fromBE (l ++ [x]) = fromBE l * 256 + x := by
  simp [fromBE, List.foldl_append]

theorem toBE_fromBE (l : List Nat) (h : ∀ x ∈ l, x < 256) :
    toBE l.length (fromBE l) = l := by
  induction l using List.reverseRecOn with
  | nil => rfl
  | append_singleton l x ih =>
    have hx : x < 256 := h x (by simp)
    have hl : ∀ y ∈ l, y < 256 := fun y hy => h y (by simp [hy])
    have hlen : (l ++ [x]).length = l.length + 1 := by simp
    rw [hlen, fromBE_append_single, toBE]
    have hdiv : (fromBE l * 256 + x) / 256 = fromBE l := by omega
    have hmod : (fromBE l * 256 + x) % 256 = x := by omega
    rw [hdiv, hmod, ih hl]

/-- C1. The claim says every 32-byte buffer with value `>= r` is rejected
by `FromBytes(b, false)`. The source's check is `bn_cmp(*k.keydata, ord) > 0`
(strictly greater), so the buffer encoding exactly the group order is
accepted and its scalar `r` is stored; only values strictly above `r` are
rejected, and `modOrder = true` indeed never fails on these bytes. -/
theorem C1_boundary_eval :
    FromBytes (toBE 32 groupOrder) false = .ok ⟨some groupOrder⟩ ∧
    FromBytes (toBE 32 (groupOrder + 1)) false = .error .notLessThanOrder ∧
    FromBytes (toBE 32 groupOrder) true = .ok ⟨some 0⟩ := by
  refine ⟨?_, ?_, ?_⟩ <;> rfl

/-- C2. Invariant I1 (stored scalar `< r`) is violated by
`FromBytes(b, false)` on the buffer encoding exactly `r`: the produced
key stores the scalar `r` itself, which is not `< r`. -/
theorem C2_invariant_violation_eval :
    FromBytes (toBE 32 groupOrder) false = .ok ⟨some groupOrder⟩ ∧
    ¬ groupOrder < groupOrder := by
  exact ⟨by rfl, by omega⟩

/-- C3. For every 32-byte buffer whose big-endian value is `< r`,
decoding with `modOrder = false` and then serialising returns the buffer
unchanged. -/
theorem C3_decode_encode_roundtrip (b : List Nat)
    (hlen : b.length = PRIVATE_KEY_SIZE) (hbytes : ∀ x ∈ b, x < 256)
    (hlt : fromBE b < groupOrder) :
    (FromBytes b false).bind PrivateKey.Serialize = .ok b := by
  have hne : ¬ b.length ≠ PRIVATE_KEY_SIZE := by simp [hlen]
  have hgt : ¬ fromBE b > groupOrder := by omega
  simp [FromBytes, hne, hgt, Except.bind, PrivateKey.Serialize,
    PrivateKey.SerializeInto, PrivateKey.CheckKeyData, Except.map]
  have := toBE_fromBE b hbytes
  rw [hlen] at this
  simpa [PRIVATE_KEY_SIZE] using this

theorem C3_witness :
    (FromBytes (List.replicate 32 0) false).bind PrivateKey.Serialize =
      .ok (List.replicate 32 0) :=
  C3_decode_encode_roundtrip (List.replicate 32 0) (by decide) (by decide)
    (by decide)

/-- C4. For every 32-byte buffer of any value, decoding with
`modOrder = true` and then serialising returns the 32-byte big-endian
encoding of the value reduced mod `r`. -/
theorem C4_decode_reduce_encode (b : List Nat)
    (hlen : b.length = PRIVATE_KEY_SIZE) (hbytes : ∀ x ∈ b, x < 256) :
    (FromBytes b true).bind PrivateKey.Serialize =
      .ok (toBE PRIVATE_KEY_SIZE (fromBE b % groupOrder)) := by
  have hne : ¬ b.length ≠ PRIVATE_KEY_SIZE := by simp [hlen]
  simp [FromBytes, hne, Except.bind, PrivateKey.Serialize,
    PrivateKey.SerializeInto, PrivateKey.CheckKeyData, Except.map]

theorem C4_witness :
    (FromBytes (List.replicate 32 255) true).bind PrivateKey.Serialize =
      .ok (toBE PRIVATE_KEY_SIZE (fromBE (List.replicate 32 255) % groupOrder)) :=
  C4_decode_reduce_encode (List.replicate 32 255) (by decide) (by decide)

/-- C7. Decoding a buffer whose length is not `PRIVATE_KEY_SIZE` signals
the invalid-size error, in both reduction modes. -/
theorem C7_invalid_size (b : List Nat) (m : Bool)
    (h : b.length ≠ PRIVATE_KEY_SIZE) :
    FromBytes b m = .error .invalidSize := by
  simp [FromBytes, h]

theorem C7_witness :
    FromBytes [] false = .error .invalidSize ∧
    FromBytes (List.replicate 31 0) false = .error .invalidSize ∧
    FromBytes (List.replicate 33 0) true = .error .invalidSize :=
  ⟨C7_invalid_size [] false (by decide),
   C7_invalid_size (List.replicate 31 0) false (by decide),
   C7_invalid_size (List.replicate 33 0) true (by decide)⟩

/-- C10. In `Serialize(buffer)` the null-buffer check precedes the
key-validity guard: a moved-from key serialised into a null buffer
signals the buffer-invalid error, not the uninitialized-key error. -/
theorem C10_null_buffer_precedence (k : PrivateKey) (h : k.keydata = none) :
    k.SerializeInto true = .error .bufferInvalid ∧
    k.SerializeInto true ≠ .error .uninitialized := by
  refine ⟨rfl, ?_⟩
  simp [PrivateKey.SerializeInto]

theorem C10_witness :
    (⟨none⟩ : PrivateKey).SerializeInto true = .error .bufferInvalid ∧
    (⟨none⟩ : PrivateKey).SerializeInto true ≠ .error .uninitialized :=
  C10_null_buffer_precedence ⟨none⟩ rfl

theorem aggLoop_map_mk (l : List Nat) (a : Nat) :
    aggLoop a (l.map (fun s => (⟨some s⟩ : PrivateKey))) =
      .ok (l.foldl (fun acc s => (acc + s) % groupOrder) a) := by
  induction l generalizing a with
  | nil => rfl
  | cons x l ih => simp [aggLoop, ih]

theorem foldl_addmod_eq_sum_mod (l : List Nat) (a : Nat) (ha : a < groupOrder) :
    l.foldl (fun acc s => (acc + s) % groupOrder) a = (a + l.sum) % groupOrder := by
  induction l generalizing a with
  | nil => simp [Nat.mod_eq_of_lt ha]
  | cons x l ih =>
    have hlt : (a + x) % groupOrder < groupOrder :=
      Nat.mod_lt _ groupOrder_pos
    simp only [List.foldl_cons, List.sum_cons]
    rw [ih _ hlt, Nat.mod_add_mod, Nat.add_assoc]

/-- C5. `Aggregate` on the empty list signals the length error; on a
non-empty list of valid keys it returns the key whose scalar is the sum
of the inputs mod `r`; the result is invariant under permutation of the
inputs; and aggregating a single key returns that key. Inputs are taken
by value in the embedding, matching the source's `const&` contract that
the input keys are unmodified. -/
theorem C5_aggregate_spec :
    (Aggregate [] = .error .emptyAggregation) ∧
    (∀ ss : List Nat, ss ≠ [] → (∀ s ∈ ss, s < groupOrder) →
      Aggregate (ss.map (fun s => (⟨some s⟩ : PrivateKey))) =
        .ok ⟨some (ss.sum % groupOrder)⟩) ∧
    (∀ ss ts : List Nat, ss ≠ [] → (∀ s ∈ ss, s < groupOrder) → ss.Perm ts →
      Aggregate (ss.map (fun s => (⟨some s⟩ : PrivateKey))) =
        Aggregate (ts.map (fun s => (⟨some s⟩ : PrivateKey)))) ∧
    (∀ s : Nat, s < groupOrder →
      Aggregate [(⟨some s⟩ : PrivateKey)] = .ok ⟨some s⟩) := by
  have sumPart : ∀ ss : List Nat, ss ≠ [] → (∀ s ∈ ss, s < groupOrder) →
      Aggregate (ss.map (fun s => (⟨some s⟩ : PrivateKey))) =
        .ok ⟨some (ss.sum % groupOrder)⟩ := by
    intro ss hne hvalid
    match ss with
    | [] => exact absurd rfl hne
    | s0 :: rest =>
      have h0 : s0 < groupOrder := hvalid s0 (by simp)
      simp only [List.map_cons, Aggregate, aggLoop_map_mk,
        foldl_addmod_eq_sum_mod rest s0 h0, Except.map, List.sum_cons]
  refine ⟨rfl, sumPart, ?_, ?_⟩
  · intro ss ts hne hvalid hperm
    have htne : ts ≠ [] := by
      intro h
      exact hne (List.eq_nil_of_length_eq_zero (by simp [hperm.length_eq, h]))
    have htvalid : ∀ s ∈ ts, s < groupOrder := fun s hs =>
      hvalid s (hperm.mem_iff.mpr hs)
    rw [sumPart ss hne hvalid, sumPart ts htne htvalid, hperm.sum_eq]
  · intro s hs
    have := sumPart [s] (by simp) (by simpa using hs)
    simpa [Nat.mod_eq_of_lt hs] using this

theorem C5_witness :
    Aggregate [] = .error .emptyAggregation ∧
    Aggregate [(⟨some 1⟩ : PrivateKey), ⟨some 2⟩] =
      .ok ⟨some ([1, 2].sum % groupOrder)⟩ ∧
    Aggregate [(⟨some 1⟩ : PrivateKey), ⟨some 2⟩] =
      Aggregate [(⟨some 2⟩ : PrivateKey), ⟨some 1⟩] ∧
    Aggregate [(⟨some 5⟩ : PrivateKey)] = .ok ⟨some 5⟩ :=
  ⟨C5_aggregate_spec.1,
   C5_aggregate_spec.2.1 [1, 2] (by decide) (by decide),
   C5_aggregate_spec.2.2.1 [1, 2] [2, 1] (by decide) (by decide)
     (List.Perm.swap 2 1 []),
   C5_aggregate_spec.2.2.2 5 (by decide)⟩

/-- C6. After a move, every operation that reads the source's scalar
(`GetG1Element`, `GetG2Element`, scaling, `Aggregate`, `IsZero`,
equality, `Serialize`, `SignG2`, copying) signals the uninitialized-key
error and, the embedding being pure, has no other effect; the destination
is exactly the key the source was before the move, so every operation on
it behaves as on the original. -/
theorem C6_move_semantics (k : PrivateKey) (e : Nat) (other : PrivateKey)
    (H : List Nat → List Nat → Nat) (msg dst : List Nat) :
    ((moveKey k).2.GetG1Element = .error .uninitialized) ∧
    ((moveKey k).2.GetG2Element = .error .uninitialized) ∧
    (mulG1 e (moveKey k).2 = .error .uninitialized) ∧
    (mulG2 e (moveKey k).2 = .error .uninitialized) ∧
    (Aggregate [(moveKey k).2] = .error .uninitialized) ∧
    ((moveKey k).2.IsZero = .error .uninitialized) ∧
    (keyEq (moveKey k).2 other = .error .uninitialized) ∧
    ((moveKey k).2.Serialize = .error .uninitialized) ∧
    ((moveKey k).2.SignG2 H msg dst = .error .uninitialized) ∧
    (copyKey (moveKey k).2 = .error .uninitialized) ∧
    ((moveKey k).1 = k) :=
  ⟨rfl, rfl, rfl, rfl, rfl, rfl, rfl, rfl, rfl, rfl, rfl⟩

/-- C8. Deriving the public element equals scaling the fixed generator by
the key through the scaling operator, in G1 and in G2; both sides also
agree (on the same error) when the key is moved-from, so the statement
holds for every key. -/
theorem C8_derive_eq_scale (k : PrivateKey) :
    k.GetG1Element = mulG1 g1Gen k ∧ k.GetG2Element = mulG2 g2Gen k := by
  obtain ⟨(_ | s)⟩ := k
  · exact ⟨rfl, rfl⟩
  · constructor <;>
      simp [PrivateKey.GetG1Element, PrivateKey.GetG2Element, mulG1, mulG2,
        PrivateKey.CheckKeyData, Except.map, g1MulGen, g2MulGen, g1Mul, g2Mul,
        g1Gen, g2Gen]

/-- C9 counterexample. The claim says varying the message changes the
output of `SignG2`. For the zero scalar — the value of a default-
constructed key, whose storage is present and valid — every message is
signed to the identity element, so two different messages give
bit-identical output. -/
theorem C9_counterexample :
    PrivateKey.SignG2 ⟨some 0⟩ ep2MapDst [1] [0] =
      PrivateKey.SignG2 ⟨some 0⟩ ep2MapDst [2] [0] ∧
    ([1] : List Nat) ≠ [2] ∧
    PrivateKey.SignG2 ⟨some 0⟩ ep2MapDst [1] [0] = .ok 0 := by
  refine ⟨rfl, by decide, rfl⟩

/-- C9 amended. `SignG2` is deterministic: on a present scalar `s` the
output is always exactly `.ok ((H msg dst * s) % r)`, so identical
inputs give bit-identical outputs. Varying the key changes the output
provided the hashed message point is invertible (its exponent coprime to
`r` — in the real prime-order group, any nonzero point); varying the
message or the tag changes the output provided the key scalar is
invertible mod `r` and the two hashed points differ mod `r`.
Unconditional sensitivity fails: the zero key signs all messages
identically. -/
theorem C9_sign_amended :
    (∀ (H : List Nat → List Nat → Nat) (s : Nat) (m d : List Nat),
      PrivateKey.SignG2 ⟨some s⟩ H m d = .ok ((H m d * s) % groupOrder)) ∧
    (∀ (H : List Nat → List Nat → Nat) (s1 s2 : Nat) (m d : List Nat),
      s1 < groupOrder → s2 < groupOrder → s1 ≠ s2 →
      Nat.gcd groupOrder (H m d) = 1 →
      PrivateKey.SignG2 ⟨some s1⟩ H m d ≠ PrivateKey.SignG2 ⟨some s2⟩ H m d) ∧
    (∀ (H : List Nat → List Nat → Nat) (s : Nat) (m1 m2 d : List Nat),
      Nat.gcd groupOrder s = 1 →
      H m1 d % groupOrder ≠ H m2 d % groupOrder →
      PrivateKey.SignG2 ⟨some s⟩ H m1 d ≠ PrivateKey.SignG2 ⟨some s⟩ H m2 d) ∧
    (∀ (H : List Nat → List Nat → Nat) (s : Nat) (m d1 d2 : List Nat),
      Nat.gcd groupOrder s = 1 →
      H m d1 % groupOrder ≠ H m d2 % groupOrder →
      PrivateKey.SignG2 ⟨some s⟩ H m d1 ≠ PrivateKey.SignG2 ⟨some s⟩ H m d2) := by
  have hval : ∀ (H : List Nat → List Nat → Nat) (s : Nat) (m d : List Nat),
      PrivateKey.SignG2 ⟨some s⟩ H m d = .ok ((H m d * s) % groupOrder) :=
    fun H s m d => rfl
  refine ⟨hval, ?_, ?_, ?_⟩
  · intro H s1 s2 m d h1 h2 hne hcop heq
    rw [hval, hval] at heq
    have hmodeq : H m d * s1 ≡ H m d * s2 [MOD groupOrder] :=
      Except.ok.inj heq
    have hs : s1 % groupOrder = s2 % groupOrder :=
      Nat.ModEq.cancel_left_of_coprime hcop hmodeq
    rw [Nat.mod_eq_of_lt h1, Nat.mod_eq_of_lt h2] at hs
    exact hne hs
  · intro H s m1 m2 d hcop hne heq
    rw [hval, hval] at heq
    have hmodeq : H m1 d * s ≡ H m2 d * s [MOD groupOrder] :=
      Except.ok.inj heq
    exact hne (Nat.ModEq.cancel_right_of_coprime hcop hmodeq)
  · intro H s m d1 d2 hcop hne heq
    rw [hval, hval] at heq
    have hmodeq : H m d1 * s ≡ H m d2 * s [MOD groupOrder] :=
      Except.ok.inj heq
    exact hne (Nat.ModEq.cancel_right_of_coprime hcop hmodeq)

theorem C9_witness :
    PrivateKey.SignG2 ⟨some 1⟩ (fun m _ => fromBE m) [7] [0] =
      .ok ((fromBE [7] * 1) % groupOrder) ∧
    PrivateKey.SignG2 ⟨some 1⟩ (fun _ _ => 1) [7] [0] ≠
      PrivateKey.SignG2 ⟨some 2⟩ (fun _ _ => 1) [7] [0] ∧
    PrivateKey.SignG2 ⟨some 1⟩ (fun m _ => fromBE m) [1] [0] ≠
      PrivateKey.SignG2 ⟨some 1⟩ (fun m _ => fromBE m) [2] [0] ∧
    PrivateKey.SignG2 ⟨some 1⟩ (fun _ d => fromBE d) [7] [1] ≠
      PrivateKey.SignG2 ⟨some 1⟩ (fun _ d => fromBE d) [7] [2] :=
  ⟨C9_sign_amended.1 (fun m _ => fromBE m) 1 [7] [0],
   C9_sign_amended.2.1 (fun _ _ => 1) 1 2 [7] [0] (by decide) (by decide)
     (by decide) (by decide),
   C9_sign_amended.2.2.1 (fun m _ => fromBE m) 1 [1] [2] [0] (by decide)
     (by decide),
   C9_sign_amended.2.2.2 (fun _ d => fromBE d) 1 [7] [1] [2] (by decide)
     (by decide)⟩

end BLS
